import Mathlib

/-!
Verification of the entity/component composition model of Directus3D:
`GameObject` (component ownership, add/get/has/remove by capability,
per-frame update dispatch, binary save/load) and the two texture
resources (`Texture`, `RHI_Texture`) that use the same serializer
pattern.

The embedding follows `GameObject.cpp` and `Graphics/Texture.cpp`.
The serializer stream is modelled as a list of typed tokens written in
program order; reading a token of an unexpected shape is a stream
desync and is modelled as failure (`Option.none`), matching the spec's
"stream desync" error class.  External collaborators (rendering
device, pools, physics, script engine, the GUID generator, the
process-wide GameObject pool and the on-disk file system) are out of
scope and appear only as opaque parameters.
-/

set_option maxHeartbeats 1000000

/-- Modelled from the spec: each component variant's field bundle.  The
concrete component sources (Transform.cpp, Camera.cpp, ...) are not part of
the provided material; the spec requires only that each component's
`Save`/`Load` pair is symmetric, so a payload is abstracted as one opaque
record travelling through the stream. -/
abbrev CompData := Nat

/-- A component as the composable object sees it: its (opaque) field bundle
and whether its one-time `Initialize` hook has run.  The collaborator
back-references injected by `AddComponent` (device, pools, owner, transform)
are external handles and are not modelled. -/
structure Comp where
  data : CompData
  initialized : Bool
deriving DecidableEq

/-- One token of the serializer stream (`Serializer::SaveSTR/SaveBool/SaveInt`
and the component payload written by a component's own `Save`). -/
inductive SVal where
  | VStr : String → SVal
  | VBool : Bool → SVal
  | VInt : Int → SVal
  | VComp : CompData → SVal
deriving DecidableEq

/-- GameObject: identifier, display name, active flag, hierarchy-visibility
flag, and the `std::map<std::string, IComponent*>` of owned components,
modelled as a key-sorted association list (insertion keeps string order,
mirroring `std::map` iteration order). -/
structure GameObject where
  m_ID : String
  m_name : String
  m_isActive : Bool
  m_hierarchyVisibility : Bool
  m_components : List (String × Comp)
deriving DecidableEq

/-- The twelve capability tags of the fixed dispatch table in
`GameObject::LoadCompFromTypeStr` (the tag is the class name, produced from
`typeid` with the leading "class " removed). -/
def knownTags : List String :=
  ["Transform", "Mesh", "MeshRenderer", "Light", "Camera", "Skybox",
   "RigidBody", "Collider", "MeshCollider", "Hinge", "Script", "LineRenderer"]

/-- Modelled from the spec: default construction (`new Type`) of a component
variant yields its default field bundle; the fields themselves are opaque
here. -/
def defaultData (_t : String) : CompData := 0

/-- First-match scan of the component collection by capability tag: the
`dynamic_cast` scan of `GameObject::GetComponent` (each concrete capability
is a distinct class, so a cast succeeds exactly on its own tag). -/
def lookupComp (t : String) : List (String × Comp) → Option Comp
  | [] => none
  | (k, c) :: rest => if k = t then some c else lookupComp t rest

/-- `std::map::insert`: key-ordered insertion that does not overwrite an
existing key. -/
def mapInsert (t : String) (c : Comp) : List (String × Comp) → List (String × Comp)
  | [] => [(t, c)]
  | (k, c') :: rest =>
    if t < k then (t, c) :: (k, c') :: rest
    else if t = k then (k, c') :: rest
    else (k, c') :: mapInsert t c rest

/-- In-place mutation of the first component stored under tag `t` (a
component's `Load` writing through the pointer held in the map). -/
def setCompData (t : String) (d : CompData) : List (String × Comp) → List (String × Comp)
  | [] => []
  | (k, c) :: rest =>
    if k = t then (k, { c with data := d }) :: rest
    else (k, c) :: setCompData t d rest

/-- Erase the first component matching the tag, reporting whether a match
was found (the found case is where `GameObject::RemoveComponent` deletes the
component, erases the map entry and calls `Scene::MakeDirty`). -/
def removeFirst (t : String) : List (String × Comp) → List (String × Comp) × Bool
  | [] => ([], false)
  | (k, c) :: rest =>
    if k = t then (rest, true)
    else
      let r := removeFirst t rest
      ((k, c) :: r.1, r.2)

/-- `GameObject::GetComponent<Type>`: first `dynamic_cast` match, `nullptr`
(here `none`) when no component matches. -/
def GameObject.getComponent (g : GameObject) (t : String) : Option Comp :=
  lookupComp t g.m_components

/-- `GameObject::HasComponent<Type>`: derived from `GetComponent`. -/
def GameObject.hasComponent (g : GameObject) (t : String) : Bool :=
  (g.getComponent t).isSome

/-- `GameObject::AddComponent<Type>`: returns the existing component when one
matches, otherwise inserts a default-constructed component under the type
tag, injects the collaborator references, runs `Initialize`, and calls
`Scene::MakeDirty`.  The returned triple is (new object state, the component
returned to the caller, whether `MakeDirty` was called). -/
def GameObject.addComponent (g : GameObject) (t : String) : GameObject × Comp × Bool :=
  match g.getComponent t with
  | some c => (g, c, false)
  | none =>
    let c : Comp := { data := defaultData t, initialized := true }
    ({ g with m_components := mapInsert t c g.m_components }, c, true)

/-- `GameObject::RemoveComponent<Type>`: erase the first match (at most one),
reporting whether `Scene::MakeDirty` was called. -/
def GameObject.removeComponent (g : GameObject) (t : String) : GameObject × Bool :=
  let r := removeFirst t g.m_components
  ({ g with m_components := r.1 }, r.2)

/-- `GameObject::Update`: nothing when inactive, otherwise dispatch `Update`
to every owned component in map order.  The result is the sequence of
update-hook invocations, by capability tag. -/
def GameObject.update (g : GameObject) : List String :=
  if !g.m_isActive then [] else g.m_components.map Prod.fst

/-- The `GameObject` constructor: fields initialised, registration with the
process-wide pool (external, not modelled), then `AddComponent<Transform>`.
The generated GUID is a parameter, the generator being external. -/
def freshGameObject (guid : String) : GameObject :=
  let g0 : GameObject :=
    { m_ID := guid, m_name := "GameObject", m_isActive := true,
      m_hierarchyVisibility := true, m_components := [] }
  (g0.addComponent "Transform").1

/-- The component records written by the `GameObject::Save` loop: for each
map entry, its type tag then the component's own payload. -/
def encodeComps : List (String × Comp) → List SVal
  | [] => []
  | p :: rest => SVal.VStr p.1 :: SVal.VComp p.2.data :: encodeComps rest

/-- `GameObject::Save`: identifier, name, active flag, hierarchy-visibility
flag, component count, then the (tag, payload) records in map order. -/
def GameObject.save (g : GameObject) : List SVal :=
  SVal.VStr g.m_ID :: SVal.VStr g.m_name :: SVal.VBool g.m_isActive ::
  SVal.VBool g.m_hierarchyVisibility ::
  SVal.VInt (g.m_components.length : Int) :: encodeComps g.m_components

/-- `Serializer::LoadSTR`; a token of a different shape is a stream desync,
modelled as failure. -/
def loadSTR : List SVal → Option (String × List SVal)
  | SVal.VStr s :: rest => some (s, rest)
  | _ => none

/-- `Serializer::LoadBool`. -/
def loadBool : List SVal → Option (Bool × List SVal)
  | SVal.VBool b :: rest => some (b, rest)
  | _ => none

/-- `Serializer::LoadInt`. -/
def loadInt : List SVal → Option (Int × List SVal)
  | SVal.VInt n :: rest => some (n, rest)
  | _ => none

/-- A component's own `Load`: consumes the payload its `Save` wrote
(symmetric by the spec's component contract). -/
def loadCompData : List SVal → Option (CompData × List SVal)
  | SVal.VComp d :: rest => some (d, rest)
  | _ => none

/-- One known-tag branch of `GameObject::LoadCompFromTypeStr`:
`AddComponent<T>()->Load()` — fetch or create the component for the tag,
then its `Load` consumes the payload and stores it through the map's
pointer.  The last triple component is the log of warnings emitted (the
source contains no logging call on this path, so it is always empty). -/
def loadKnownTag (t : String) (g : GameObject) (st : List SVal) :
    Option (GameObject × List SVal × List String) :=
  let g1 := (g.addComponent t).1
  match loadCompData st with
  | some (d, st') =>
    some ({ g1 with m_components := setCompData t d g1.m_components }, st', [])
  | none => none

/-- `GameObject::LoadCompFromTypeStr`: the fixed dispatch table over the
twelve capability tags.  A tag matching none of the branches falls through
the function body: no warning is logged and the stream is not advanced. -/
def GameObject.loadCompFromTypeStr (typeStr : String) (g : GameObject)
    (st : List SVal) : Option (GameObject × List SVal × List String) :=
  if typeStr = "Transform" then loadKnownTag "Transform" g st
  else if typeStr = "Mesh" then loadKnownTag "Mesh" g st
  else if typeStr = "MeshRenderer" then loadKnownTag "MeshRenderer" g st
  else if typeStr = "Light" then loadKnownTag "Light" g st
  else if typeStr = "Camera" then loadKnownTag "Camera" g st
  else if typeStr = "Skybox" then loadKnownTag "Skybox" g st
  else if typeStr = "RigidBody" then loadKnownTag "RigidBody" g st
  else if typeStr = "Collider" then loadKnownTag "Collider" g st
  else if typeStr = "MeshCollider" then loadKnownTag "MeshCollider" g st
  else if typeStr = "Hinge" then loadKnownTag "Hinge" g st
  else if typeStr = "Script" then loadKnownTag "Script" g st
  else if typeStr = "LineRenderer" then loadKnownTag "LineRenderer" g st
  else some (g, st, [])

/-- The component-reading loop of `GameObject::Load`: `componentCount`
iterations, each reading a type tag and dispatching through
`LoadCompFromTypeStr`.  Warnings emitted by the iterations are concatenated. -/
def GameObject.loadComponents : Nat → GameObject → List SVal →
    Option (GameObject × List SVal × List String)
  | 0, g, st => some (g, st, [])
  | Nat.succ n, g, st => do
    let (tag, st1) ← loadSTR st
    let (g1, st2, log1) ← g.loadCompFromTypeStr tag st1
    let (g2, st3, log2) ← GameObject.loadComponents n g1 st2
    return (g2, st3, log1 ++ log2)

/-- `GameObject::Load`: identifier, name, flags, component count, then the
component-reading loop (a negative persisted count runs zero iterations). -/
def GameObject.load (g : GameObject) (st : List SVal) :
    Option (GameObject × List SVal × List String) := do
  let (id, st1) ← loadSTR st
  let (nm, st2) ← loadSTR st1
  let (act, st3) ← loadBool st2
  let (hv, st4) ← loadBool st3
  let (n, st5) ← loadInt st4
  GameObject.loadComponents n.toNat
    { g with m_ID := id, m_name := nm, m_isActive := act,
             m_hierarchyVisibility := hv } st5

/-- The `std::map` key-uniqueness invariant of the component collection. -/
def nodupKeys (g : GameObject) : Prop :=
  (g.m_components.map Prod.fst).Nodup

/-- Every owned component has had its `Initialize` hook run — established by
`AddComponent` being the only way a component enters the collection. -/
def allInitialized (g : GameObject) : Prop :=
  ∀ p ∈ g.m_components, p.2.initialized = true

/-- The state invariant of a live `GameObject`. -/
def GameObject.WF (g : GameObject) : Prop :=
  nodupKeys g ∧ allInitialized g

/-- Every owned component's tag is in the fixed dispatch table — true of any
collection built through `AddComponent<T>` for the twelve exported
capability types. -/
def tagsKnown (g : GameObject) : Prop :=
  ∀ p ∈ g.m_components, p.1 ∈ knownTags

/-- The state effect of one known-tag load step,
`AddComponent<T>()->Load()`: fetch or create the component under `t`, then
overwrite its field bundle with the payload `d` read from the stream. -/
def applyLoad (t : String) (d : CompData) (g : GameObject) : GameObject :=
  let g1 := (g.addComponent t).1
  { g1 with m_components := setCompData t d g1.m_components }

/-! ## Texture (metadata serialization, `Texture.cpp` 2016 variant) -/

/-- `Texture`: the serialized fields of the 2016 texture resource.  The
texture-type discriminant `m_type` is stored as its underlying integer
(`Serializer::WriteInt(int(m_type))`); the enum declares a fixed small set
of nonnegative values starting at `Albedo = 0`, so negative integers are
never legal discriminants. -/
structure Texture where
  m_ID : String
  m_name : String
  m_filePathTexture : String
  m_filePathMetadata : String
  m_width : Int
  m_height : Int
  m_type : Int
  m_grayscale : Bool
  m_transparency : Bool
deriving DecidableEq

/-- `Texture::Serialize`: ID, name, both file paths, width, height, the
texture-type discriminant as a raw integer, grayscale, transparency. -/
def Texture.serialize (t : Texture) : List SVal :=
  [SVal.VStr t.m_ID, SVal.VStr t.m_name, SVal.VStr t.m_filePathTexture,
   SVal.VStr t.m_filePathMetadata, SVal.VInt t.m_width, SVal.VInt t.m_height,
   SVal.VInt t.m_type, SVal.VBool t.m_grayscale, SVal.VBool t.m_transparency]

/-- `Texture::Deserialize`: reads the same fields in the same order.  The
texture-type discriminant is obtained by casting the integer read
(`m_type = TextureType(Serializer::ReadInt())`) with no range check of any
kind: whatever integer is in the stream becomes the field's value. -/
def Texture.deserialize (st : List SVal) : Option (Texture × List SVal) := do
  let (id, st1) ← loadSTR st
  let (nm, st2) ← loadSTR st1
  let (fpt, st3) ← loadSTR st2
  let (fpm, st4) ← loadSTR st3
  let (w, st5) ← loadInt st4
  let (h, st6) ← loadInt st5
  let (ty, st7) ← loadInt st6
  let (gs, st8) ← loadBool st7
  let (tr, st9) ← loadBool st8
  return ({ m_ID := id, m_name := nm, m_filePathTexture := fpt,
            m_filePathMetadata := fpm, m_width := w, m_height := h,
            m_type := ty, m_grayscale := gs, m_transparency := tr }, st9)

/-! ## RHI_Texture (engine-format persistence, `Texture.cpp` 2018 variant) -/

/-- One token of the 2018 `FileStream` format: fixed-width unsigned integer,
length-prefixed byte block (one mip level), boolean, length-prefixed
string. -/
inductive FToken where
  | FUInt : Nat → FToken
  | FBytes : List Nat → FToken
  | FBool : Bool → FToken
  | FStr : String → FToken
deriving DecidableEq

/-- `RHI_Texture`: the fields persisted by the engine texture format.
`m_data` is the vector of mip-level byte blocks. -/
structure RHI_Texture where
  m_data : List (List Nat)
  m_bpp : Nat
  m_width : Nat
  m_height : Nat
  m_channels : Nat
  m_isGrayscale : Bool
  m_isTransparent : Bool
  m_isUsingMipmaps : Bool
  m_resourceID : Nat
  m_resourceName : String
  m_resourceFilePath : String
deriving DecidableEq

/-- `RHI_Texture::GetTextureBytes` as called from `Serialize`: when the
in-memory mip bytes are present they are used as-is; when they have been
cleared they are re-read from the texture's own resource file, an external
stream modelled by `reload` (an unopenable or absent file is the empty
list, leaving `m_data` empty). -/
def getTextureBytes (reload : List (List Nat)) (s : RHI_Texture) : RHI_Texture :=
  if s.m_data.isEmpty then { s with m_data := reload } else s

/-- The token stream written by `RHI_Texture::Serialize`: mip count, each
mip's byte block, then bpp, width, height, channels, isGrayscale,
isTransparent, usingMipmaps, resourceID, resourceName, resourceFilePath. -/
def rhiStream (s : RHI_Texture) : List FToken :=
  FToken.FUInt s.m_data.length :: s.m_data.map FToken.FBytes ++
  [FToken.FUInt s.m_bpp, FToken.FUInt s.m_width, FToken.FUInt s.m_height,
   FToken.FUInt s.m_channels, FToken.FBool s.m_isGrayscale,
   FToken.FBool s.m_isTransparent, FToken.FBool s.m_isUsingMipmaps,
   FToken.FUInt s.m_resourceID, FToken.FStr s.m_resourceName,
   FToken.FStr s.m_resourceFilePath]

/-- `RHI_Texture::Serialize`: re-acquire the texture bytes if cleared, open
the file (`fileOpen` models the external file system; failure returns
`false` with nothing written), write the stream, then `ClearTextureBytes`.
The result mirrors the C++ (success flag, stream written, state after). -/
def RHI_Texture.serialize (fileOpen : Bool) (reload : List (List Nat))
    (s : RHI_Texture) : Bool × List FToken × RHI_Texture :=
  let s1 := getTextureBytes reload s
  if !fileOpen then (false, [], s1)
  else (true, rhiStream s1, { s1 with m_data := [] })

/-- The mip-reading loop of `RHI_Texture::Deserialize`: `mipCount` byte
blocks; a token of a different shape is a stream desync, modelled as
failure. -/
def readMips : Nat → List FToken → Option (List (List Nat) × List FToken)
  | 0, st => some ([], st)
  | Nat.succ n, FToken.FBytes b :: rest =>
    match readMips n rest with
    | some (ds, st') => some (b :: ds, st')
    | none => none
  | Nat.succ _, _ => none

/-- `RHI_Texture::Deserialize`: open the file (failure returns `false`,
modelled as `none`), clear the texture bytes, read the mip count and the
mip blocks, then the properties, in exactly the writer's order.  Every
persisted field is overwritten, so the result is determined by the
stream. -/
def RHI_Texture.deserialize (fileOpen : Bool) (st : List FToken) :
    Option (RHI_Texture × List FToken) := do
  if !fileOpen then none
  else
    match st with
    | FToken.FUInt mipCount :: st1 => do
      let (d, st2) ← readMips mipCount st1
      match st2 with
      | FToken.FUInt bpp :: FToken.FUInt w :: FToken.FUInt h ::
        FToken.FUInt ch :: FToken.FBool gs :: FToken.FBool tr ::
        FToken.FBool mm :: FToken.FUInt rid :: FToken.FStr rn ::
        FToken.FStr rfp :: st3 =>
        return ({ m_data := d, m_bpp := bpp, m_width := w, m_height := h,
                  m_channels := ch, m_isGrayscale := gs,
                  m_isTransparent := tr, m_isUsingMipmaps := mm,
                  m_resourceID := rid, m_resourceName := rn,
                  m_resourceFilePath := rfp }, st3)
      | _ => none
    | _ => none

/-- The cumulative state effect of the component-reading loop over the
saved (tag, payload) records. -/
def loadFold (l : List (String × Comp)) (g : GameObject) : GameObject :=
  l.foldl (fun gA p => applyLoad p.1 p.2.data gA) g

/-- The fresh load target right after `GameObject::Load` has read the
header fields of the saved object `g` (identifier, name, both flags). -/
def loadedHeader (guid : String) (g : GameObject) : GameObject :=
  { freshGameObject guid with
      m_ID := g.m_ID, m_name := g.m_name,
      m_isActive := g.m_isActive,
      m_hierarchyVisibility := g.m_hierarchyVisibility }

/-- A concrete saved object with no components at all (its transform
removed through the unguarded `RemoveComponent<Transform>`), used to probe
the round-trip law. -/
def gNoComps : GameObject :=
  { m_ID := "object-7", m_name := "empty", m_isActive := true,
    m_hierarchyVisibility := true, m_components := [] }

/-- A concrete object owning one camera component with payload 5. -/
def gCam : GameObject :=
  { m_ID := "object-9", m_name := "rig", m_isActive := true,
    m_hierarchyVisibility := false,
    m_components := [("Camera", { data := 5, initialized := true })] }

/-- A concrete engine texture with two mip levels in memory. -/
def rhiW : RHI_Texture :=
  { m_data := [[1, 2, 3, 4], [5, 6]], m_bpp := 32, m_width := 2, m_height := 2,
    m_channels := 4, m_isGrayscale := false, m_isTransparent := true,
    m_isUsingMipmaps := true, m_resourceID := 11, m_resourceName := "tex",
    m_resourceFilePath := "data/tex.engtex" }

/-! ## Lemmas about the component map -/

theorem lookupComp_eq_none_iff {t : String} {l : List (String × Comp)} :
    lookupComp t l = none ↔ t ∉ l.map Prod.fst := by
  induction l with
  | nil => simp [lookupComp]
  | cons p rest ih =>
    obtain ⟨k, c⟩ := p
    by_cases h : k = t
    · subst h; simp [lookupComp]
    · simp [lookupComp, h, ih, Ne.symm h]

theorem lookupComp_isSome_iff {t : String} {l : List (String × Comp)} :
    (lookupComp t l).isSome = true ↔ t ∈ l.map Prod.fst := by
  rw [Option.isSome_iff_ne_none, ne_eq, lookupComp_eq_none_iff, not_not]

theorem lookupComp_mem {t : String} {l : List (String × Comp)} {c : Comp}
    (h : lookupComp t l = some c) : (t, c) ∈ l := by
  induction l with
  | nil => simp [lookupComp] at h
  | cons p rest ih =>
    obtain ⟨k, c'⟩ := p
    by_cases hk : k = t
    · subst hk
      simp [lookupComp] at h
      subst h; exact List.mem_cons_self _ _
    · simp [lookupComp, hk] at h
      exact List.mem_cons_of_mem _ (ih h)

theorem lookupComp_mapInsert_self {t : String} {c : Comp}
    {l : List (String × Comp)} (h : t ∉ l.map Prod.fst) :
    lookupComp t (mapInsert t c l) = some c := by
  induction l with
  | nil => simp [mapInsert, lookupComp]
  | cons p rest ih =>
    obtain ⟨k, c'⟩ := p
    simp only [List.map_cons, List.mem_cons, not_or] at h
    obtain ⟨hne, hrest⟩ := h
    have hkt : ¬ k = t := fun hh => hne hh.symm
    by_cases hlt : t < k
    · simp [mapInsert, hlt, lookupComp]
    · simp [mapInsert, hlt, hne, lookupComp, hkt, ih hrest]

theorem lookupComp_mapInsert_other {t t' : String} {c : Comp}
    {l : List (String × Comp)} (h : t' ≠ t) :
    lookupComp t' (mapInsert t c l) = lookupComp t' l := by
  have h' : ¬ t = t' := fun hh => h hh.symm
  induction l with
  | nil => simp [mapInsert, lookupComp, h']
  | cons p rest ih =>
    obtain ⟨k, c'⟩ := p
    by_cases hlt : t < k
    · simp [mapInsert, hlt, lookupComp, h']
    · by_cases heq : t = k
      · simp [mapInsert, hlt, heq]
      · simp [mapInsert, hlt, heq, lookupComp, ih]

theorem mem_keys_mapInsert {s t : String} {c : Comp} {l : List (String × Comp)} :
    s ∈ (mapInsert t c l).map Prod.fst ↔ s = t ∨ s ∈ l.map Prod.fst := by
  induction l with
  | nil => simp [mapInsert]
  | cons p rest ih =>
    obtain ⟨k, c'⟩ := p
    by_cases hlt : t < k
    · simp only [mapInsert, if_pos hlt, List.map_cons, List.mem_cons]
    · by_cases heq : t = k
      · subst heq
        have hl : mapInsert t c ((t, c') :: rest) = (t, c') :: rest := by
          simp [mapInsert, hlt]
        rw [hl]
        simp only [List.map_cons, List.mem_cons]
        tauto
      · simp only [mapInsert, if_neg hlt, if_neg heq, List.map_cons,
          List.mem_cons, ih]
        tauto

theorem nodup_keys_mapInsert {t : String} {c : Comp} {l : List (String × Comp)}
    (hmem : t ∉ l.map Prod.fst) (hnd : (l.map Prod.fst).Nodup) :
    ((mapInsert t c l).map Prod.fst).Nodup := by
  induction l with
  | nil => simp [mapInsert]
  | cons p rest ih =>
    obtain ⟨k, c'⟩ := p
    simp only [List.map_cons, List.mem_cons, not_or] at hmem
    obtain ⟨hne, hrest⟩ := hmem
    simp only [List.map_cons, List.nodup_cons] at hnd
    obtain ⟨hk, hnd'⟩ := hnd
    by_cases hlt : t < k
    · simp only [mapInsert, if_pos hlt, List.map_cons, List.nodup_cons,
        List.mem_cons, not_or]
      exact ⟨⟨hne, hrest⟩, hk, hnd'⟩
    · simp only [mapInsert, if_neg hlt, if_neg hne, List.map_cons,
        List.nodup_cons]
      refine ⟨?_, ih hrest hnd'⟩
      rw [mem_keys_mapInsert]
      rintro (rfl | h)
      · exact hne rfl
      · exact hk h

theorem keys_setCompData {t : String} {d : CompData} {l : List (String × Comp)} :
    (setCompData t d l).map Prod.fst = l.map Prod.fst := by
  induction l with
  | nil => rfl
  | cons p rest ih =>
    obtain ⟨k, c⟩ := p
    by_cases hk : k = t
    · simp [setCompData, hk]
    · simp [setCompData, hk, ih]

theorem lookupComp_setCompData_self {t : String} {d : CompData}
    {l : List (String × Comp)} :
    lookupComp t (setCompData t d l) =
      (lookupComp t l).map (fun c => { c with data := d }) := by
  induction l with
  | nil => simp [setCompData, lookupComp]
  | cons p rest ih =>
    obtain ⟨k, c⟩ := p
    by_cases hk : k = t
    · subst hk; simp [setCompData, lookupComp]
    · simp [setCompData, hk, lookupComp, ih]

theorem lookupComp_setCompData_other {t t' : String} {d : CompData}
    {l : List (String × Comp)} (h : t' ≠ t) :
    lookupComp t' (setCompData t d l) = lookupComp t' l := by
  induction l with
  | nil => rfl
  | cons p rest ih =>
    obtain ⟨k, c⟩ := p
    by_cases hk : k = t
    · subst hk
      have hk' : ¬ k = t' := fun hh => h hh.symm
      simp [setCompData, lookupComp, hk']
    · by_cases hk' : k = t'
      · subst hk'; simp [setCompData, hk, lookupComp]
      · simp [setCompData, hk, hk', lookupComp, ih]

theorem allInit_setCompData {t : String} {d : CompData} {l : List (String × Comp)}
    (h : ∀ p ∈ l, p.2.initialized = true) :
    ∀ p ∈ setCompData t d l, p.2.initialized = true := by
  induction l with
  | nil => simp [setCompData]
  | cons q rest ih =>
    obtain ⟨k, c⟩ := q
    intro p hp
    by_cases hk : k = t
    · simp only [setCompData, if_pos hk, List.mem_cons] at hp
      rcases hp with rfl | hp
      · exact h (k, c) (List.mem_cons_self _ _)
      · exact h p (List.mem_cons_of_mem _ hp)
    · simp only [setCompData, if_neg hk, List.mem_cons] at hp
      rcases hp with rfl | hp
      · exact h (k, c) (List.mem_cons_self _ _)
      · exact ih (fun q hq => h q (List.mem_cons_of_mem _ hq)) p hp

theorem allInit_mapInsert {t : String} {c : Comp} {l : List (String × Comp)}
    (hc : c.initialized = true) (h : ∀ p ∈ l, p.2.initialized = true) :
    ∀ p ∈ mapInsert t c l, p.2.initialized = true := by
  induction l with
  | nil =>
    intro p hp
    simp only [mapInsert, List.mem_singleton] at hp
    subst hp; exact hc
  | cons q rest ih =>
    obtain ⟨k, c'⟩ := q
    intro p hp
    by_cases hlt : t < k
    · simp only [mapInsert, if_pos hlt, List.mem_cons] at hp
      rcases hp with rfl | rfl | hp
      · exact hc
      · exact h (k, c') (List.mem_cons_self _ _)
      · exact h p (List.mem_cons_of_mem _ hp)
    · by_cases heq : t = k
      · simp only [mapInsert, if_neg hlt, if_pos heq, List.mem_cons] at hp
        rcases hp with rfl | hp
        · exact h (k, c') (List.mem_cons_self _ _)
        · exact h p (List.mem_cons_of_mem _ hp)
      · simp only [mapInsert, if_neg hlt, if_neg heq, List.mem_cons] at hp
        rcases hp with rfl | hp
        · exact h (k, c') (List.mem_cons_self _ _)
        · exact ih (fun q hq => h q (List.mem_cons_of_mem _ hq)) p hp

theorem removeFirst_not_found {t : String} {l : List (String × Comp)}
    (h : lookupComp t l = none) : removeFirst t l = (l, false) := by
  induction l with
  | nil => rfl
  | cons p rest ih =>
    obtain ⟨k, c⟩ := p
    by_cases hk : k = t
    · subst hk; simp [lookupComp] at h
    · simp only [lookupComp, if_neg hk] at h
      simp [removeFirst, hk, ih h]

theorem removeFirst_found {t : String} {l : List (String × Comp)} {c : Comp}
    (h : lookupComp t l = some c) :
    (removeFirst t l).2 = true ∧ (removeFirst t l).1.length + 1 = l.length := by
  induction l with
  | nil => simp [lookupComp] at h
  | cons p rest ih =>
    obtain ⟨k, c'⟩ := p
    by_cases hk : k = t
    · simp [removeFirst, hk]
    · simp only [lookupComp, if_neg hk] at h
      obtain ⟨h1, h2⟩ := ih h
      simp [removeFirst, hk, h1, h2]

theorem lookupComp_removeFirst {t : String} {l : List (String × Comp)}
    (hnd : (l.map Prod.fst).Nodup) :
    lookupComp t (removeFirst t l).1 = none := by
  induction l with
  | nil => rfl
  | cons p rest ih =>
    obtain ⟨k, c⟩ := p
    simp only [List.map_cons, List.nodup_cons] at hnd
    obtain ⟨hk, hnd'⟩ := hnd
    by_cases hkt : k = t
    · subst hkt
      simp only [removeFirst, if_pos rfl]
      exact lookupComp_eq_none_iff.mpr hk
    · simp only [removeFirst, if_neg hkt, lookupComp, if_neg hkt]
      exact ih hnd'

/-! ## Lemmas about AddComponent and the load loop -/

theorem addComponent_of_found {g : GameObject} {t : String} {c : Comp}
    (h : g.getComponent t = some c) : g.addComponent t = (g, c, false) := by
  simp [GameObject.addComponent, h]

theorem addComponent_of_not_found {g : GameObject} {t : String}
    (h : g.getComponent t = none) :
    g.addComponent t =
      ({ g with m_components :=
          mapInsert t { data := defaultData t, initialized := true } g.m_components },
       { data := defaultData t, initialized := true }, true) := by
  simp [GameObject.addComponent, h]

theorem getComponent_applyLoad_self {g : GameObject} {t : String} {d : CompData}
    (hinit : ∀ p ∈ g.m_components, p.2.initialized = true) :
    (applyLoad t d g).getComponent t = some { data := d, initialized := true } := by
  cases h : g.getComponent t with
  | some c =>
    have hc : c.initialized = true := hinit (t, c) (lookupComp_mem h)
    simp only [applyLoad, addComponent_of_found h, GameObject.getComponent]
    rw [lookupComp_setCompData_self]
    simp only [GameObject.getComponent] at h
    simp [h, hc]
  | none =>
    simp only [applyLoad, addComponent_of_not_found h, GameObject.getComponent]
    rw [lookupComp_setCompData_self]
    have hmem : t ∉ g.m_components.map Prod.fst := by
      simpa [GameObject.getComponent, lookupComp_eq_none_iff] using h
    rw [lookupComp_mapInsert_self hmem]
    rfl

theorem getComponent_applyLoad_other {g : GameObject} {t t' : String}
    {d : CompData} (h : t' ≠ t) :
    (applyLoad t d g).getComponent t' = g.getComponent t' := by
  cases hg : g.getComponent t with
  | some c =>
    simp only [applyLoad, addComponent_of_found hg, GameObject.getComponent]
    rw [lookupComp_setCompData_other h]
  | none =>
    simp only [applyLoad, addComponent_of_not_found hg, GameObject.getComponent]
    rw [lookupComp_setCompData_other h, lookupComp_mapInsert_other h]

theorem allInit_applyLoad {g : GameObject} {t : String} {d : CompData}
    (hinit : ∀ p ∈ g.m_components, p.2.initialized = true) :
    ∀ p ∈ (applyLoad t d g).m_components, p.2.initialized = true := by
  cases h : g.getComponent t with
  | some c =>
    simp only [applyLoad, addComponent_of_found h]
    exact allInit_setCompData hinit
  | none =>
    simp only [applyLoad, addComponent_of_not_found h]
    exact allInit_setCompData (allInit_mapInsert rfl hinit)

theorem nodup_keys_applyLoad {g : GameObject} {t : String} {d : CompData}
    (hnd : (g.m_components.map Prod.fst).Nodup) :
    ((applyLoad t d g).m_components.map Prod.fst).Nodup := by
  cases h : g.getComponent t with
  | some c =>
    simp only [applyLoad, addComponent_of_found h]
    rw [keys_setCompData]; exact hnd
  | none =>
    simp only [applyLoad, addComponent_of_not_found h]
    rw [keys_setCompData]
    have hmem : t ∉ g.m_components.map Prod.fst := by
      simpa [GameObject.getComponent, lookupComp_eq_none_iff] using h
    exact nodup_keys_mapInsert hmem hnd

theorem loadKnownTag_encoded {t : String} {d : CompData} {g : GameObject}
    {rest : List SVal} :
    loadKnownTag t g (SVal.VComp d :: rest) = some (applyLoad t d g, rest, []) := rfl

theorem loadCompFromTypeStr_known {t : String} (h : t ∈ knownTags)
    (g : GameObject) (st : List SVal) :
    g.loadCompFromTypeStr t st = loadKnownTag t g st := by
  fin_cases h <;> rfl

/-- The component-reading loop consumes exactly the records that the save
loop wrote, applying one known-tag load step per record. -/
theorem loadComponents_encoded :
    ∀ (l : List (String × Comp)) (g : GameObject) (rest : List SVal),
    (∀ p ∈ l, p.1 ∈ knownTags) →
    GameObject.loadComponents l.length g (encodeComps l ++ rest) =
      some (l.foldl (fun gA p => applyLoad p.1 p.2.data gA) g, rest, []) := by
  intro l
  induction l with
  | nil => intro g rest _; rfl
  | cons p tl ih =>
    intro g rest hknown
    obtain ⟨k, c⟩ := p
    have hk : k ∈ knownTags := hknown (k, c) (List.mem_cons_self _ _)
    simp only [encodeComps, List.length_cons, List.cons_append]
    show GameObject.loadComponents (tl.length + 1) g
      (SVal.VStr k :: SVal.VComp c.data :: (encodeComps tl ++ rest)) = _
    rw [show tl.length + 1 = Nat.succ tl.length from rfl]
    simp only [GameObject.loadComponents, loadSTR, Option.bind_eq_bind,
      Option.some_bind, loadCompFromTypeStr_known hk, loadKnownTag_encoded]
    rw [ih (applyLoad k c.data g) rest
      (fun q hq => hknown q (List.mem_cons_of_mem _ hq))]
    rfl

/-- Lookup through the fold of load steps: a tag present in the saved
records gets the saved payload; any other tag keeps the pre-loop component. -/
theorem getComponent_foldl :
    ∀ (l : List (String × Comp)) (g : GameObject) (t : String),
    (l.map Prod.fst).Nodup →
    (∀ p ∈ g.m_components, p.2.initialized = true) →
    (l.foldl (fun gA p => applyLoad p.1 p.2.data gA) g).getComponent t =
      (match lookupComp t l with
       | some c => some { data := c.data, initialized := true }
       | none => g.getComponent t) := by
  intro l
  induction l with
  | nil => intro g t _ _; rfl
  | cons p tl ih =>
    intro g t hnd hinit
    obtain ⟨k, c⟩ := p
    simp only [List.map_cons, List.nodup_cons] at hnd
    obtain ⟨hk, hnd'⟩ := hnd
    simp only [List.foldl_cons]
    rw [ih (applyLoad k c.data g) t hnd' (allInit_applyLoad hinit)]
    by_cases hkt : k = t
    · subst hkt
      have hnone : lookupComp k tl = none := lookupComp_eq_none_iff.mpr hk
      simp [lookupComp, hnone, getComponent_applyLoad_self hinit]
    · simp only [lookupComp, if_neg hkt]
      cases htl : lookupComp t tl with
      | some c' => rfl
      | none =>
        simp only []
        exact getComponent_applyLoad_other (fun hh => hkt hh.symm)

theorem mapInsert_length {t : String} {c : Comp} {l : List (String × Comp)} :
    (mapInsert t c l).length ≤ l.length + 1 := by
  induction l with
  | nil => simp [mapInsert]
  | cons p rest ih =>
    obtain ⟨k, c'⟩ := p
    by_cases hlt : t < k
    · simp [mapInsert, hlt]
    · by_cases heq : t = k
      · simp [mapInsert, hlt, heq]
      · simp only [mapInsert, if_neg hlt, if_neg heq, List.length_cons]
        omega

theorem applyLoad_scalar (t : String) (d : CompData) (g : GameObject) :
    (applyLoad t d g).m_ID = g.m_ID ∧ (applyLoad t d g).m_name = g.m_name ∧
    (applyLoad t d g).m_isActive = g.m_isActive ∧
    (applyLoad t d g).m_hierarchyVisibility = g.m_hierarchyVisibility := by
  cases h : g.getComponent t with
  | some c => simp [applyLoad, addComponent_of_found h]
  | none => simp [applyLoad, addComponent_of_not_found h]

theorem loadFold_scalar :
    ∀ (l : List (String × Comp)) (g : GameObject),
    (loadFold l g).m_ID = g.m_ID ∧ (loadFold l g).m_name = g.m_name ∧
    (loadFold l g).m_isActive = g.m_isActive ∧
    (loadFold l g).m_hierarchyVisibility = g.m_hierarchyVisibility := by
  intro l
  induction l with
  | nil => intro g; exact ⟨rfl, rfl, rfl, rfl⟩
  | cons p tl ih =>
    intro g
    obtain ⟨h1, h2, h3, h4⟩ := ih (applyLoad p.1 p.2.data g)
    obtain ⟨g1, g2, g3, g4⟩ := applyLoad_scalar p.1 p.2.data g
    exact ⟨h1.trans g1, h2.trans g2, h3.trans g3, h4.trans g4⟩

theorem readMips_encoded :
    ∀ (d : List (List Nat)) (rest : List FToken),
    readMips d.length (d.map FToken.FBytes ++ rest) = some (d, rest) := by
  intro d
  induction d with
  | nil => intro rest; rfl
  | cons b tl ih =>
    intro rest
    simp only [List.length_cons, List.map_cons, List.cons_append]
    show readMips (Nat.succ tl.length) (FToken.FBytes b :: (tl.map FToken.FBytes ++ rest)) = _
    simp only [readMips, ih rest]

theorem hasComponent_eq_false_iff {g : GameObject} {t : String} :
    g.hasComponent t = false ↔ g.getComponent t = none := by
  cases h : g.getComponent t <;> simp [GameObject.hasComponent, h]

/-! ## Claim theorems -/

/-- C2: for every capability tag and every well-formed object,
`AddComponent` called twice returns the same component both times, the
second call leaves the object unchanged, the component count grows by at
most one, and after the first call exactly one component of that capability
exists, is returned by lookup, and has been initialized. -/
theorem addComponent_idempotent (g : GameObject) (t : String) (hwf : g.WF) :
    ((g.addComponent t).1.addComponent t).2.1 = (g.addComponent t).2.1 ∧
    ((g.addComponent t).1.addComponent t).1 = (g.addComponent t).1 ∧
    (g.addComponent t).1.m_components.length ≤ g.m_components.length + 1 ∧
    (g.addComponent t).1.getComponent t = some (g.addComponent t).2.1 ∧
    ((g.addComponent t).1.m_components.map Prod.fst).count t = 1 ∧
    (g.addComponent t).2.1.initialized = true := by
  obtain ⟨hnd, hinit⟩ := hwf
  cases h : g.getComponent t with
  | some c =>
    have h1 : g.addComponent t = (g, c, false) := addComponent_of_found h
    have hsome : (lookupComp t g.m_components).isSome = true := by
      have hl : lookupComp t g.m_components = some c := h
      simp [hl]
    have hmem : t ∈ g.m_components.map Prod.fst := lookupComp_isSome_iff.mp hsome
    refine ⟨by simp [h1, h], by simp [h1, h], by simp [h1],
      by simp [h1, h], ?_, ?_⟩
    · simp only [h1]
      exact List.count_eq_one_of_mem hnd hmem
    · simp only [h1]
      exact hinit (t, c) (lookupComp_mem h)
  | none =>
    have h1 : g.addComponent t =
        ({ g with m_components :=
            mapInsert t { data := defaultData t, initialized := true } g.m_components },
         { data := defaultData t, initialized := true }, true) :=
      addComponent_of_not_found h
    have hmem : t ∉ g.m_components.map Prod.fst := by
      have hl : lookupComp t g.m_components = none := h
      exact lookupComp_eq_none_iff.mp hl
    have hlook : (g.addComponent t).1.getComponent t =
        some { data := defaultData t, initialized := true } := by
      simp only [h1, GameObject.getComponent]
      exact lookupComp_mapInsert_self hmem
    have h2 : (g.addComponent t).1.addComponent t =
        ((g.addComponent t).1, { data := defaultData t, initialized := true }, false) :=
      addComponent_of_found hlook
    refine ⟨by rw [h2, h1], by rw [h2], ?_, by rw [hlook, h1], ?_, by rw [h1]⟩
    · simp only [h1]
      exact mapInsert_length
    · simp only [h1]
      exact List.count_eq_one_of_mem (nodup_keys_mapInsert hmem hnd)
        (mem_keys_mapInsert.mpr (Or.inl rfl))

/-- C2 witness: the idempotence at a concrete object and capability. -/
theorem addComponent_idempotent_witness :
    gCam.WF ∧
    (((gCam.addComponent "Skybox").1.addComponent "Skybox").2.1 =
        (gCam.addComponent "Skybox").2.1 ∧
      ((gCam.addComponent "Skybox").1.addComponent "Skybox").1 =
        (gCam.addComponent "Skybox").1 ∧
      (gCam.addComponent "Skybox").1.m_components.length ≤
        gCam.m_components.length + 1 ∧
      (gCam.addComponent "Skybox").1.getComponent "Skybox" =
        some (gCam.addComponent "Skybox").2.1 ∧
      ((gCam.addComponent "Skybox").1.m_components.map Prod.fst).count "Skybox" = 1 ∧
      (gCam.addComponent "Skybox").2.1.initialized = true) := by
  have hwf : gCam.WF := by
    constructor
    · simp [gCam, nodupKeys]
    · intro p hp
      simp only [gCam, List.mem_singleton] at hp
      subst hp; rfl
  exact ⟨hwf, addComponent_idempotent gCam "Skybox" hwf⟩

/-- C4: a freshly constructed object owns exactly one component, the
transform, and `GetComponent` with the transform tag returns it. -/
theorem fresh_gameObject_transform (guid : String) :
    (freshGameObject guid).m_components =
      [("Transform", { data := defaultData "Transform", initialized := true })] ∧
    (freshGameObject guid).getComponent "Transform" =
      some { data := defaultData "Transform", initialized := true } :=
  ⟨rfl, rfl⟩

/-- C5: an inactive object dispatches no update work at all; an active one
dispatches the update hook of every owned component exactly once. -/
theorem update_dispatch (g : GameObject) (hwf : g.WF) :
    (g.m_isActive = false → g.update = []) ∧
    (g.m_isActive = true →
      g.update = g.m_components.map Prod.fst ∧
      ∀ t ∈ g.m_components.map Prod.fst, g.update.count t = 1) := by
  obtain ⟨hnd, _⟩ := hwf
  constructor
  · intro h; simp [GameObject.update, h]
  · intro h
    have hu : g.update = g.m_components.map Prod.fst := by
      simp [GameObject.update, h]
    refine ⟨hu, fun t ht => ?_⟩
    rw [hu]
    exact List.count_eq_one_of_mem hnd ht

/-- C5 witness: the dispatch behaviour at a concrete active object. -/
theorem update_dispatch_witness :
    gCam.WF ∧
    (gCam.m_isActive = false → gCam.update = []) ∧
    (gCam.m_isActive = true →
      gCam.update = gCam.m_components.map Prod.fst ∧
      ∀ t ∈ gCam.m_components.map Prod.fst, gCam.update.count t = 1) := by
  have hwf : gCam.WF := by
    constructor
    · simp [gCam, nodupKeys]
    · intro p hp
      simp only [gCam, List.mem_singleton] at hp
      subst hp; rfl
  exact ⟨hwf, update_dispatch gCam hwf⟩

/-- C6: after `RemoveComponent`, `HasComponent` is false; at most one entry
is removed; and with no matching component the call is a no-op that does
not mark the scene dirty. -/
theorem removeComponent_spec (g : GameObject) (t : String) (hwf : g.WF) :
    (g.removeComponent t).1.hasComponent t = false ∧
    (g.removeComponent t).1.m_components.length ≤ g.m_components.length ∧
    g.m_components.length ≤ (g.removeComponent t).1.m_components.length + 1 ∧
    (g.hasComponent t = false → g.removeComponent t = (g, false)) := by
  obtain ⟨hnd, _⟩ := hwf
  have hafter : lookupComp t (removeFirst t g.m_components).1 = none :=
    lookupComp_removeFirst hnd
  refine ⟨?_, ?_, ?_, ?_⟩
  · simp [GameObject.removeComponent, GameObject.hasComponent,
      GameObject.getComponent, hafter]
  · cases hc : lookupComp t g.m_components with
    | none => simp [GameObject.removeComponent, removeFirst_not_found hc]
    | some c =>
      have := (removeFirst_found hc).2
      simp only [GameObject.removeComponent]
      omega
  · cases hc : lookupComp t g.m_components with
    | none => simp [GameObject.removeComponent, removeFirst_not_found hc]
    | some c =>
      have := (removeFirst_found hc).2
      simp only [GameObject.removeComponent]
      omega
  · intro h
    have hc : lookupComp t g.m_components = none := hasComponent_eq_false_iff.mp h
    simp [GameObject.removeComponent, removeFirst_not_found hc]

/-- C6 witness: removal at a concrete object, both for a present and for an
absent capability. -/
theorem removeComponent_spec_witness :
    gCam.WF ∧
    ((gCam.removeComponent "Camera").1.hasComponent "Camera" = false ∧
      (gCam.removeComponent "Camera").1.m_components.length ≤
        gCam.m_components.length ∧
      gCam.m_components.length ≤
        (gCam.removeComponent "Camera").1.m_components.length + 1 ∧
      (gCam.hasComponent "Camera" = false →
        gCam.removeComponent "Camera" = (gCam, false))) := by
  have hwf : gCam.WF := by
    constructor
    · simp [gCam, nodupKeys]
    · intro p hp
      simp only [gCam, List.mem_singleton] at hp
      subst hp; rfl
  exact ⟨hwf, removeComponent_spec gCam "Camera" hwf⟩

/-- C9: `Scene::MakeDirty` fires exactly when the collection changes:
adding an already-present capability or removing an absent one leaves the
object unchanged and does not mark the scene dirty, while a real insertion
or removal does. -/
theorem makeDirty_exactly_on_change (g : GameObject) (t : String) :
    (g.hasComponent t = true →
      (g.addComponent t).1 = g ∧ (g.addComponent t).2.2 = false ∧
      (g.removeComponent t).2 = true) ∧
    (g.hasComponent t = false →
      (g.addComponent t).2.2 = true ∧ g.removeComponent t = (g, false)) := by
  constructor
  · intro h
    obtain ⟨c, hc⟩ := Option.isSome_iff_exists.mp h
    have hl : lookupComp t g.m_components = some c := hc
    refine ⟨?_, ?_, ?_⟩
    · simp [addComponent_of_found hc]
    · simp [addComponent_of_found hc]
    · simp [GameObject.removeComponent, (removeFirst_found hl).1]
  · intro h
    have hc : g.getComponent t = none := hasComponent_eq_false_iff.mp h
    have hl : lookupComp t g.m_components = none := hc
    refine ⟨?_, ?_⟩
    · simp [addComponent_of_not_found hc]
    · simp [GameObject.removeComponent, removeFirst_not_found hl]

/-- C9 witness: the dirty-marking behaviour at a concrete object for a
present capability and an absent one. -/
theorem makeDirty_exactly_on_change_witness :
    (gCam.hasComponent "Camera" = true →
      (gCam.addComponent "Camera").1 = gCam ∧
      (gCam.addComponent "Camera").2.2 = false ∧
      (gCam.removeComponent "Camera").2 = true) ∧
    (gCam.hasComponent "Camera" = false →
      (gCam.addComponent "Camera").2.2 = true ∧
      gCam.removeComponent "Camera" = (gCam, false)) :=
  makeDirty_exactly_on_change gCam "Camera"

theorem load_save_eq_loadFold (guid : String) (g : GameObject)
    (hkn : tagsKnown g) :
    GameObject.load (freshGameObject guid) (GameObject.save g) =
      some (loadFold g.m_components (loadedHeader guid g), [], []) := by
  simp only [GameObject.save, GameObject.load, loadSTR, loadBool, loadInt,
    Option.bind_eq_bind, Option.bind, loadFold, loadedHeader]
  rw [Int.toNat_ofNat, ← List.append_nil (encodeComps g.m_components)]
  exact loadComponents_encoded g.m_components _ [] hkn

theorem getComponent_loadedHeader (guid : String) (g : GameObject)
    (t : String) :
    (loadedHeader guid g).getComponent t =
      if t = "Transform"
        then some { data := defaultData "Transform", initialized := true }
        else none := by
  show lookupComp t
    [("Transform", { data := defaultData "Transform", initialized := true })] = _
  by_cases ht : t = "Transform"
  · subst ht
    simp [lookupComp]
  · have ht' : ¬ ("Transform" : String) = t := fun hh => ht hh.symm
    simp [lookupComp, ht', ht]

theorem allInit_loadedHeader (guid : String) (g : GameObject) :
    ∀ p ∈ (loadedHeader guid g).m_components, p.2.initialized = true := by
  intro p hp
  have hp2 : p ∈
      [("Transform", { data := defaultData "Transform", initialized := true })] := hp
  simp only [List.mem_singleton] at hp2
  subst hp2
  rfl

theorem getComponent_loadFold_loadedHeader (guid : String) (g : GameObject)
    (hwf : g.WF) (t : String) :
    (loadFold g.m_components (loadedHeader guid g)).getComponent t =
      if (g.getComponent t).isSome then g.getComponent t
      else if t = "Transform"
        then some { data := defaultData "Transform", initialized := true }
        else none := by
  obtain ⟨hnd, hinit⟩ := hwf
  have hL : loadFold g.m_components (loadedHeader guid g) =
      g.m_components.foldl (fun gA p => applyLoad p.1 p.2.data gA)
        (loadedHeader guid g) := rfl
  rw [hL, getComponent_foldl g.m_components (loadedHeader guid g) t hnd
    (allInit_loadedHeader guid g)]
  cases hc : lookupComp t g.m_components with
  | some c =>
    have hgc : g.getComponent t = some c := hc
    have hci : c.initialized = true := hinit (t, c) (lookupComp_mem hc)
    obtain ⟨cd, ci⟩ := c
    simp only at hci
    subst hci
    simp [hgc]
  | none =>
    have hgc : g.getComponent t = none := hc
    simp [hgc, getComponent_loadedHeader]

/-- C1 (amended): saving a well-formed object whose component tags are in
the dispatch table and loading the stream into a fresh object consumes the
whole stream, logs nothing, restores the identifier, name and both flags,
and reconstructs every saved component field-for-field; the loaded object's
capability tags are the saved ones together with the transform tag, which
the fresh target already owns (left with its default fields when the saved
set had no transform). -/
theorem save_load_roundtrip (guid : String) (g : GameObject)
    (hwf : g.WF) (hkn : tagsKnown g) :
    ∃ g', GameObject.load (freshGameObject guid) (GameObject.save g) =
        some (g', [], []) ∧
      g'.m_ID = g.m_ID ∧ g'.m_name = g.m_name ∧
      g'.m_isActive = g.m_isActive ∧
      g'.m_hierarchyVisibility = g.m_hierarchyVisibility ∧
      (∀ t, g'.getComponent t =
        if (g.getComponent t).isSome then g.getComponent t
        else if t = "Transform"
          then some { data := defaultData "Transform", initialized := true }
          else none) ∧
      (∀ t, g'.hasComponent t = true ↔
        (g.hasComponent t = true ∨ t = "Transform")) := by
  refine ⟨loadFold g.m_components (loadedHeader guid g),
    load_save_eq_loadFold guid g hkn,
    (loadFold_scalar _ _).1, (loadFold_scalar _ _).2.1,
    (loadFold_scalar _ _).2.2.1, (loadFold_scalar _ _).2.2.2,
    getComponent_loadFold_loadedHeader guid g hwf, ?_⟩
  intro t
  simp only [GameObject.hasComponent,
    getComponent_loadFold_loadedHeader guid g hwf t]
  by_cases hg : (g.getComponent t).isSome = true
  · simp [hg]
  · by_cases ht : t = "Transform"
    · subst ht
      simp [hg]
    · simp [hg, ht]

/-- C1 witness: the round trip at a concrete well-formed object owning a
camera component. -/
theorem save_load_roundtrip_witness :
    gCam.WF ∧ tagsKnown gCam ∧
    (∃ g', GameObject.load (freshGameObject "w-1") (GameObject.save gCam) =
        some (g', [], []) ∧
      g'.m_ID = gCam.m_ID ∧ g'.m_name = gCam.m_name ∧
      g'.m_isActive = gCam.m_isActive ∧
      g'.m_hierarchyVisibility = gCam.m_hierarchyVisibility ∧
      (∀ t, g'.getComponent t =
        if (gCam.getComponent t).isSome then gCam.getComponent t
        else if t = "Transform"
          then some { data := defaultData "Transform", initialized := true }
          else none) ∧
      (∀ t, g'.hasComponent t = true ↔
        (gCam.hasComponent t = true ∨ t = "Transform"))) := by
  have hwf : gCam.WF := by
    constructor
    · simp [gCam, nodupKeys]
    · intro p hp
      simp only [gCam, List.mem_singleton] at hp
      subst hp; rfl
  have hkn : tagsKnown gCam := by
    intro p hp
    have hp2 : p ∈ [("Camera", ({ data := 5, initialized := true } : Comp))] := hp
    simp only [List.mem_singleton] at hp2
    subst hp2
    decide
  exact ⟨hwf, hkn, save_load_roundtrip "w-1" gCam hwf hkn⟩

/-- C1 counterexample to the claim as stated: saving an object with an
empty component set and loading it into a fresh object yields an object
whose capability-tag set is not the saved one — the fresh target's
transform is still there. -/
theorem save_load_roundtrip_counterexample :
    (GameObject.load (freshGameObject "fresh-1") (GameObject.save gNoComps)).map
        (fun r => r.1.hasComponent "Transform") = some true ∧
    gNoComps.hasComponent "Transform" = false := ⟨rfl, rfl⟩

/-- C3 (code behaviour at the failing input): when `GameObject::Load` reads
a persisted component tag that is not in the fixed dispatch table,
`LoadCompFromTypeStr` falls through all twelve branches: no warning is
logged (the warning log stays empty) and the entry's payload is not
consumed — the unknown component's payload is still at the head of the
stream when the loop continues, desynchronizing every later read.  The
claim's required behaviour (report a recoverable warning and skip the
entry before continuing) does not happen. -/
theorem load_unknown_tag_silently_ignored :
    GameObject.loadCompFromTypeStr "FancyNewComponent" (freshGameObject "g-3")
        [SVal.VComp 7] =
      some (freshGameObject "g-3", [SVal.VComp 7], []) ∧
    GameObject.load (freshGameObject "g-3")
        [SVal.VStr "obj-3", SVal.VStr "name-3", SVal.VBool true, SVal.VBool true,
         SVal.VInt 1, SVal.VStr "FancyNewComponent", SVal.VComp 7] =
      some ({ freshGameObject "g-3" with m_ID := "obj-3", m_name := "name-3" },
            [SVal.VComp 7], []) := ⟨rfl, rfl⟩

/-- C7 (code behaviour at the failing input): `Texture::Deserialize` casts
the integer read for the texture-type discriminant with no range check.
The value `-1` is not a legal `TextureType` discriminant (the enum starts
at `Albedo = 0`), yet deserialization succeeds and silently stores it as
the field's value instead of producing an error. -/
theorem texture_type_out_of_range_accepted :
    Texture.deserialize
        [SVal.VStr "tex-1", SVal.VStr "wood", SVal.VStr "a/b.png",
         SVal.VStr "a/b.png.meta", SVal.VInt 256, SVal.VInt 256,
         SVal.VInt (-1), SVal.VBool false, SVal.VBool false] =
      some ({ m_ID := "tex-1", m_name := "wood", m_filePathTexture := "a/b.png",
              m_filePathMetadata := "a/b.png.meta", m_width := 256,
              m_height := 256, m_type := -1, m_grayscale := false,
              m_transparency := false }, []) := rfl

theorem rhi_deserialize_rhiStream (x : RHI_Texture) :
    RHI_Texture.deserialize true (rhiStream x) = some (x, []) := by
  have hm := readMips_encoded x.m_data
    [FToken.FUInt x.m_bpp, FToken.FUInt x.m_width, FToken.FUInt x.m_height,
     FToken.FUInt x.m_channels, FToken.FBool x.m_isGrayscale,
     FToken.FBool x.m_isTransparent, FToken.FBool x.m_isUsingMipmaps,
     FToken.FUInt x.m_resourceID, FToken.FStr x.m_resourceName,
     FToken.FStr x.m_resourceFilePath]
  simp only [RHI_Texture.deserialize, rhiStream, Bool.not_true, List.cons_append,
    Bool.false_eq_true, if_false, hm, Option.bind_eq_bind, Option.bind]
  rfl

/-- C8: the engine texture writer emits exactly mip count, the mip byte
blocks, then bpp, width, height, channels, isGrayscale, isTransparent,
usingMipmaps, resourceID, resourceName, resourceFilePath — and the reader
consumes the same fields in the same order, so deserializing the stream
written for a state restores all of those fields (the mip bytes being the
in-memory ones, or the ones re-read from the texture's own file when the
in-memory copy had been cleared). -/
theorem rhi_serialize_deserialize_roundtrip (s : RHI_Texture)
    (reload : List (List Nat)) (st : List FToken) (s' : RHI_Texture)
    (h : RHI_Texture.serialize true reload s = (true, st, s')) :
    st = FToken.FUInt (getTextureBytes reload s).m_data.length ::
        (getTextureBytes reload s).m_data.map FToken.FBytes ++
        [FToken.FUInt s.m_bpp, FToken.FUInt s.m_width, FToken.FUInt s.m_height,
         FToken.FUInt s.m_channels, FToken.FBool s.m_isGrayscale,
         FToken.FBool s.m_isTransparent, FToken.FBool s.m_isUsingMipmaps,
         FToken.FUInt s.m_resourceID, FToken.FStr s.m_resourceName,
         FToken.FStr s.m_resourceFilePath] ∧
    RHI_Texture.deserialize true st = some (getTextureBytes reload s, []) ∧
    (s.m_data ≠ [] → getTextureBytes reload s = s) := by
  have hser : RHI_Texture.serialize true reload s =
      (true, rhiStream (getTextureBytes reload s),
        { getTextureBytes reload s with m_data := [] }) := rfl
  rw [hser] at h
  have hst : rhiStream (getTextureBytes reload s) = st :=
    congrArg (fun p => p.2.1) h
  refine ⟨?_, ?_, ?_⟩
  · rw [← hst]
    by_cases he : s.m_data.isEmpty <;> simp [rhiStream, getTextureBytes, he]
  · rw [← hst]
    exact rhi_deserialize_rhiStream (getTextureBytes reload s)
  · intro hne
    have he : s.m_data.isEmpty = false := by
      cases hd : s.m_data with
      | nil => exact absurd hd hne
      | cons a l => rfl
    simp [getTextureBytes, he]

/-- C8 witness: the round trip at a concrete texture with two mip levels
in memory. -/
theorem rhi_serialize_deserialize_roundtrip_witness :
    RHI_Texture.serialize true [] rhiW =
      (true, (RHI_Texture.serialize true [] rhiW).2.1,
       (RHI_Texture.serialize true [] rhiW).2.2) ∧
    RHI_Texture.deserialize true (RHI_Texture.serialize true [] rhiW).2.1 =
      some (rhiW, []) ∧
    getTextureBytes [] rhiW = rhiW := by
  have h : RHI_Texture.serialize true [] rhiW =
      (true, (RHI_Texture.serialize true [] rhiW).2.1,
       (RHI_Texture.serialize true [] rhiW).2.2) := rfl
  have hr := rhi_serialize_deserialize_roundtrip rhiW []
    (RHI_Texture.serialize true [] rhiW).2.1
    (RHI_Texture.serialize true [] rhiW).2.2 h
  have hne : rhiW.m_data ≠ [] := by simp [rhiW]
  exact ⟨h, (hr.2.1).trans (by rw [hr.2.2 hne]), hr.2.2 hne⟩

/-- C10: whenever `RHI_Texture::Serialize` succeeds (returns `true`), it
has cleared the texture's in-memory mip byte storage — saving a texture
mutates the texture's own state. -/
theorem rhi_serialize_clears_texture_bytes (fileOpen : Bool)
    (reload : List (List Nat)) (s : RHI_Texture) (st : List FToken)
    (s' : RHI_Texture)
    (h : RHI_Texture.serialize fileOpen reload s = (true, st, s')) :
    s'.m_data = [] := by
  cases fileOpen with
  | false =>
    have hser : RHI_Texture.serialize false reload s =
        (false, [], getTextureBytes reload s) := rfl
    rw [hser] at h
    exact absurd (congrArg (fun p => p.1) h) (by simp)
  | true =>
    have hser : RHI_Texture.serialize true reload s =
        (true, rhiStream (getTextureBytes reload s),
          { getTextureBytes reload s with m_data := [] }) := rfl
    rw [hser] at h
    have hs' : ({ getTextureBytes reload s with m_data := [] } : RHI_Texture) = s' :=
      congrArg (fun p => p.2.2) h
    rw [← hs']

/-- C10 witness: the mip storage of the state returned by a successful
serialize of a concrete texture is empty. -/
theorem rhi_serialize_clears_texture_bytes_witness :
    ((RHI_Texture.serialize true [] rhiW).2.2).m_data = [] := by
  have h : RHI_Texture.serialize true [] rhiW =
      (true, (RHI_Texture.serialize true [] rhiW).2.1,
       (RHI_Texture.serialize true [] rhiW).2.2) := rfl
  exact rhi_serialize_clears_texture_bytes true [] rhiW
    (RHI_Texture.serialize true [] rhiW).2.1
    (RHI_Texture.serialize true [] rhiW).2.2 h
